import Mathlib

/-!
Verification of the interproxy caching layer (main.go).

The source is a small HTTP caching proxy: an in-memory store of cache
entries keyed by query string, a per-(key,page) waiter registry used to
coalesce concurrent misses, a prefetching fetch fan-out, and a periodic
TTL sweep.  All store state is mutated only by closures drained from a
single channel (a serialized actor), so the serialized operations are
embedded here as pure state transitions on a `Cache` value; the wall
clock is passed explicitly as a natural number of seconds, and the Go
zero `time.Time` is the number 0.  Channels used as one-shot gates are
modelled by numeric identities allocated from a counter, with a ghost
list recording which gates have been closed.
-/

namespace Interproxy

/-! Association lists stand in for Go maps.  `alistSet` replaces the
first binding of the key or appends a new one, `alistRemove` drops every
binding of the key; on lists whose keys are nodup (the only lists the
transitions ever build from map-like states) these agree with Go map
assignment and `delete`. -/

section AList

variable {α β : Type} [DecidableEq α]

def alistLookup : List (α × β) → α → Option β
  | [], _ => none
  | (k, v) :: t, k2 => if k = k2 then some v else alistLookup t k2

def alistSet : List (α × β) → α → β → List (α × β)
  | [], k, v => [(k, v)]
  | (k1, v1) :: t, k, v => if k1 = k then (k, v) :: t else (k1, v1) :: alistSet t k v

def alistRemove : List (α × β) → α → List (α × β)
  | [], _ => []
  | (k1, v1) :: t, k => if k1 = k then alistRemove t k else (k1, v1) :: alistRemove t k

end AList

/-- Group key: the query string identifying one logical result set
(`type cacheGroup string`). -/
abbrev CacheGroup := String

/-- A page handed to a caller (`type page struct`, main.go:73).  Bodies
are opaque byte sequences, modelled as lists of naturals. -/
structure Page where
  n : Int
  body : List Nat
  expire : Nat
  cached : Bool
deriving DecidableEq

/-- `newPage` (main.go:80): expire and cached start at their zero
values. -/
def newPage (n : Int) (body : List Nat) : Page :=
  { n := n, body := body, expire := 0, cached := false }

/-- `type cacheEntry struct` (main.go:94): one deadline governs every
page of the entry. -/
structure CacheEntry where
  deadline : Nat
  pages : List (Int × List Nat)
deriving DecidableEq

/-- `newCacheEntry` (main.go:100): deadline is the creation time plus
the duration `d`.  The Go code calls `time.Now()` internally; the
creation instant is passed explicitly here. -/
def newCacheEntry (now d : Nat) : CacheEntry :=
  { deadline := now + d, pages := [] }

/-- `cacheEntry.invalid` (main.go:107): `!ce.deadline.After(t)`, that
is, the deadline is at or before `t`. -/
def CacheEntry.invalid (ce : CacheEntry) (t : Nat) : Bool :=
  ce.deadline ≤ t

/-- `cacheEntry.getPage` (main.go:111): a fresh page value carrying the
stored body and the entry deadline. -/
def CacheEntry.getPage (ce : CacheEntry) (n : Int) : Option Page :=
  match alistLookup ce.pages n with
  | none => none
  | some b => some { n := n, body := b, expire := ce.deadline, cached := false }

/-- `cacheEntry.addPage` (main.go:121): stores the body under the page
index; the deadline is not touched. -/
def CacheEntry.addPage (ce : CacheEntry) (p : Page) : CacheEntry :=
  { ce with pages := alistSet ce.pages p.n p.body }

/-- `type waiters struct` (main.go:126).  A gate (`chan struct` in Go)
is identified by the counter value at its creation; `closed` is a ghost
record of the gates that `done` has closed. -/
structure Waiters where
  waits : List (CacheGroup × List (Int × Nat))
  nextGate : Nat
  closed : List Nat
deriving DecidableEq

/-- `newWaiters` (main.go:130). -/
def newWaiters : Waiters :=
  { waits := [], nextGate := 0, closed := [] }

/-- `waiters.wait` (main.go:136): return the registered gate for
(group, n) when one exists; otherwise create a fresh gate (creating the
inner map first when the group is absent, as the Go code does), register
it and return it. -/
def Waiters.wait (w : Waiters) (group : CacheGroup) (n : Int) : Waiters × Nat :=
  match alistLookup w.waits group with
  | none =>
      let ch := w.nextGate
      ({ waits := alistSet w.waits group [(n, ch)],
         nextGate := w.nextGate + 1, closed := w.closed }, ch)
  | some inner =>
      match alistLookup inner n with
      | some ch => (w, ch)
      | none =>
          let ch := w.nextGate
          ({ waits := alistSet w.waits group (alistSet inner n ch),
             nextGate := w.nextGate + 1, closed := w.closed }, ch)

/-- `waiters.done` (main.go:149): no-op when no gate is registered for
(group, n); otherwise close the gate, delete its registration, and drop
the group's inner map when it became empty. -/
def Waiters.done (w : Waiters) (group : CacheGroup) (n : Int) : Waiters :=
  match alistLookup w.waits group with
  | none => w
  | some inner =>
      match alistLookup inner n with
      | none => w
      | some ch =>
          let inner2 := alistRemove inner n
          let waits2 :=
            if inner2.length = 0 then alistRemove w.waits group
            else alistSet w.waits group inner2
          { waits := waits2, nextGate := w.nextGate, closed := ch :: w.closed }

/-- `type multifetch struct` (main.go:18).  The URL template and the
query-escaped key feed only the outbound URL text, which no claim
concerns; the fields that drive page arithmetic are kept. -/
structure Multifetch where
  group : CacheGroup
  first : Int
  pages : Int
deriving DecidableEq

/-- `newMultifetch` (main.go:26). -/
def newMultifetch (group : CacheGroup) (n total : Int) : Multifetch :=
  { group := group, first := n, pages := total }

/-- `multifetch.rangePages` (main.go:36). -/
def Multifetch.rangePages (m : Multifetch) : Int × Int :=
  (0, m.pages)

/-- The page index a retrieval task spawned by `multifetch.fetch`
(main.go:40) reports to `cache.add`: the argument is offset by
`m.first` (`n = m.first + n`). -/
def Multifetch.fetchPage (m : Multifetch) (n : Int) : Int :=
  m.first + n

/-- Message wrapped around a failed origin fetch (main.go:47). -/
def errFetch : String := "cannot fetch URL"

/-- `type cache struct` (main.go:168): the entries map and the waiter
registry, both owned by the serialized worker. -/
structure Cache where
  entries : List (CacheGroup × CacheEntry)
  waits : Waiters
deriving DecidableEq

/-- `newCache` (main.go:174), before any event has been processed. -/
def newCache : Cache :=
  { entries := [], waits := newWaiters }

/-- `cache.add` (main.go:218), the serialized operation enqueued by a
completed retrieval task: take the existing entry or create a fresh one
with a 5-minute TTL, store the page body unconditionally, store the
entry back, and signal the waiter for (group, p.n).  The error is only
returned to the worker loop, which logs it. -/
def Cache.add (c : Cache) (now : Nat) (group : CacheGroup) (p : Page)
    (err : Option String) : Cache × Option String :=
  let ce :=
    match alistLookup c.entries group with
    | some ce => ce
    | none => newCacheEntry now (5 * 60)
  let ce2 := ce.addPage p
  ({ entries := alistSet c.entries group ce2,
     waits := Waiters.done c.waits group p.n }, err)

/-- The goroutine body of `multifetch.fetch` (main.go:44): the network
result is `some body` on success and `none` on failure, in which case
the body passed to `add` is the nil slice (empty) and the error is
wrapped. -/
def Multifetch.fetch (m : Multifetch) (c : Cache) (now : Nat) (n : Int)
    (result : Option (List Nat)) : Cache × Option String :=
  let n2 := m.fetchPage n
  let body := match result with | some b => b | none => []
  let err : Option String := match result with | some _ => none | none => some errFetch
  Cache.add c now m.group (newPage n2 body) err

/-- Observable outcome of `cache.request` (main.go:233): the waiter
registry after the call, the gate returned to the caller, the page
indices passed to `waiters.wait` in order, and the page indices the
spawned retrieval tasks will report to `cache.add` in order. -/
structure RequestOut where
  waits : Waiters
  gate : Nat
  waitCalls : List Int
  tasks : List Int
deriving DecidableEq

/-- The `for ; lo < hi; lo++` loop of `cache.request` (main.go:238):
each iteration registers a waiter for the loop counter `lo` itself and
spawns a fetch whose task reports page `first + lo`.  The fuel is the
iteration count `(hi - lo).toNat`. -/
def requestLoop (first : Int) (group : CacheGroup) :
    Waiters → Int → Nat → Waiters × List Int × List Int
  | w, _, 0 => (w, [], [])
  | w, lo, fuel + 1 =>
      let w2 := (Waiters.wait w group lo).1
      let rest := requestLoop first group w2 (lo + 1) fuel
      (rest.1, lo :: rest.2.1, (first + lo) :: rest.2.2)

/-- `cache.request` (main.go:233): register a waiter for `n`, build a
multifetch with `first = n` and `pages = 3`, spawn `mf.fetch(c, n)`
(whose task reports page `n + n`), then run the loop over
`rangePages`. -/
def Cache.request (w : Waiters) (group : CacheGroup) (n : Int) : RequestOut :=
  let wr := Waiters.wait w group n
  let mf := newMultifetch group n 3
  let t0 := mf.fetchPage n
  let r := mf.rangePages
  let loopOut := requestLoop mf.first group wr.1 r.1 (r.2 - r.1).toNat
  { waits := loopOut.1, gate := wr.2,
    waitCalls := n :: loopOut.2.1, tasks := t0 :: loopOut.2.2 }

/-- Outcome of one iteration of the query closure inside `cache.get`
(main.go:254): either a cache hit, or the state after `request`
together with the gate to block on and the pages of the spawned
tasks. -/
inductive GetStep where
  | hit (p : Page)
  | requested (c : Cache) (gate : Nat) (tasks : List Int)
deriving DecidableEq

/-- One iteration of the query closure of `cache.get` (main.go:254).
The Go closure declares `var now time.Time` and assigns `time.Now()` to
it only when the entry is absent — a branch in which `ce.invalid(now)`
is never evaluated, because `!ok ||` short-circuits.  When the entry is
present, `ce.invalid` is therefore evaluated at the zero time, written
0 here. -/
def Cache.getStep (c : Cache) (now : Nat) (group : CacheGroup) (n : Int) : GetStep :=
  match alistLookup c.entries group with
  | none =>
      let r := Cache.request c.waits group n
      .requested { entries := c.entries, waits := r.waits } r.gate r.tasks
  | some ce =>
      if ce.invalid 0 then
        let r := Cache.request c.waits group n
        .requested { entries := c.entries, waits := r.waits } r.gate r.tasks
      else
        match ce.getPage n with
        | some p => .hit p
        | none =>
            let r := Cache.request c.waits group n
            .requested { entries := c.entries, waits := r.waits } r.gate r.tasks

def stepTasks : GetStep → List Int
  | .hit _ => []
  | .requested _ _ ts => ts

def stepCache : GetStep → Option Cache
  | .hit _ => none
  | .requested c _ _ => some c

def stepGate : GetStep → Option Nat
  | .hit _ => none
  | .requested _ g _ => some g

/-- The retry loop of `cache.get` (main.go:252): each iteration runs
the query closure on the cache state current when the serialized worker
reaches it (other events may run in between, so the successive states
and clock readings are supplied by the environment as `steps`).  On a
hit the page is returned with `page.cached = cached`; on a miss the
caller blocks on the gate and retries with `cached = false`.  An empty
`steps` list means the caller is still blocked. -/
def Cache.getLoop : List (Cache × Nat) → CacheGroup → Int → Bool → Option Page
  | [], _, _, _ => none
  | (c, now) :: rest, group, n, cached =>
      match Cache.getStep c now group n with
      | .hit p => some { p with cached := cached }
      | .requested _ _ _ => Cache.getLoop rest group n false

/-- `cache.get` (main.go:245): the loop starts with `cached := true`. -/
def Cache.get (steps : List (Cache × Nat)) (group : CacheGroup) (n : Int) : Option Page :=
  Cache.getLoop steps group n true

/-- The scan of the sweep closure in `cache.gc` (main.go:198): collect
every group whose entry is invalid at the sweep instant. -/
def collectPurge : List (CacheGroup × CacheEntry) → Nat → List CacheGroup
  | [], _ => []
  | (g, ce) :: t, now =>
      if ce.invalid now then g :: collectPurge t now else collectPurge t now

/-- One sweep pass of `cache.gc` (main.go:197): collect the expired
groups, then, when there are any, delete them one by one. -/
def Cache.gc (c : Cache) (now : Nat) : Cache :=
  let purge := collectPurge c.entries now
  if 0 < purge.length then
    { entries := purge.foldl (fun es g => alistRemove es g) c.entries,
      waits := c.waits }
  else c

/-- The gate registered for (group, n), when one exists. -/
def gateLookup (w : Waiters) (group : CacheGroup) (n : Int) : Option Nat :=
  (alistLookup w.waits group).bind (fun inner => alistLookup inner n)

/-- The body cached for page n of a group, when one exists. -/
def pageLookup (c : Cache) (group : CacheGroup) (n : Int) : Option (List Nat) :=
  (alistLookup c.entries group).bind (fun ce => alistLookup ce.pages n)

/-- Outcome of `origin.handle` (main.go:303) as far as the core is
concerned: 404, a 500 request-level failure, or a call into
`cache.get` with the parsed arguments. -/
inductive HandleResult where
  | notFound
  | serverError
  | callGet (q : CacheGroup) (n : Int)
deriving DecidableEq

/-- Accumulating decimal digit parser: fails on the first non-digit. -/
def digitsVal : List Char → Nat → Option Nat
  | [], acc => some acc
  | ch :: t, acc =>
      if ch.isDigit then digitsVal t (acc * 10 + (ch.toNat - 48)) else none

/-- Model of `strconv.ParseInt(s, 10, 64)` as used in main.go:312: an
optional sign followed by at least one decimal digit, failing when the
value exceeds the int64 range. -/
def strconvParseInt (s : String) : Option Int :=
  match s.data with
  | [] => none
  | '+' :: rest =>
      match rest with
      | [] => none
      | _ => (digitsVal rest 0).bind
          (fun v => if v ≤ 2 ^ 63 - 1 then some (Int.ofNat v) else none)
  | '-' :: rest =>
      match rest with
      | [] => none
      | _ => (digitsVal rest 0).bind
          (fun v => if v ≤ 2 ^ 63 then some (-(Int.ofNat v : Int)) else none)
  | l => (digitsVal l 0).bind
      (fun v => if v ≤ 2 ^ 63 - 1 then some (Int.ofNat v) else none)

/-- `origin.handle` (main.go:303): 404 when the query is empty; page
defaults to 0 when the page variable is empty; a parse error is a 500;
otherwise `cache.get` is invoked with whatever integer parsed. -/
def handle (q : String) (nvar : String) : HandleResult :=
  if q = "" then .notFound
  else
    if nvar = "" then .callGet q 0
    else
      match strconvParseInt nvar with
      | none => .serverError
      | some m => .callGet q m

/-- Well-formedness a Go map always has: the group keys are distinct
and so are the page keys of every inner map. -/
def WaitersWF (w : Waiters) : Prop :=
  (w.waits.map Prod.fst).Nodup ∧ ∀ gi ∈ w.waits, (gi.2.map Prod.fst).Nodup

/-- Sum of `f` over the values bound to key `k`. -/
def weightedKeyCount {α β : Type} [DecidableEq α]
    (l : List (α × β)) (k : α) (f : β → Nat) : Nat :=
  (l.map (fun x => if x.1 = k then f x.2 else 0)).sum

/-- Number of gates registered for (g, n) counted across every binding
of the nested registry, duplicates included. -/
def gateCount (w : Waiters) (g : CacheGroup) (n : Int) : Nat :=
  weightedKeyCount w.waits g (fun inner => weightedKeyCount inner n (fun _ => 1))

/-- Concrete group key used by the scenario theorems. -/
def kAbc : CacheGroup := "abc"

/-- Concrete page variable used by the adapter theorems. -/
def negOne : String := "-1"

/-! Lemmas about the association-list primitives. -/

section AListLemmas

variable {α β : Type} [DecidableEq α]

theorem alistLookup_set_self (l : List (α × β)) (k : α) (v : β) :
    alistLookup (alistSet l k v) k = some v := by
  induction l with
  | nil => simp [alistSet, alistLookup]
  | cons hd t ih =>
    obtain ⟨k1, v1⟩ := hd
    by_cases h : k1 = k
    · subst h
      simp [alistSet, alistLookup]
    · simp [alistSet, alistLookup, h, ih]

theorem alistLookup_set_ne (l : List (α × β)) (k : α) (v : β) (k2 : α) (h : k ≠ k2) :
    alistLookup (alistSet l k v) k2 = alistLookup l k2 := by
  induction l with
  | nil => simp [alistSet, alistLookup, h]
  | cons hd t ih =>
    obtain ⟨k1, v1⟩ := hd
    by_cases h1 : k1 = k
    · subst h1
      simp [alistSet, alistLookup, h]
    · simp [alistSet, alistLookup, h1, ih]

theorem alistLookup_remove_self (l : List (α × β)) (k : α) :
    alistLookup (alistRemove l k) k = none := by
  induction l with
  | nil => simp [alistRemove, alistLookup]
  | cons hd t ih =>
    obtain ⟨k1, v1⟩ := hd
    by_cases h : k1 = k
    · simp [alistRemove, h, ih]
    · simp [alistRemove, alistLookup, h, ih]

theorem alistLookup_remove_ne (l : List (α × β)) (k k2 : α) (h : k ≠ k2) :
    alistLookup (alistRemove l k) k2 = alistLookup l k2 := by
  induction l with
  | nil => simp [alistRemove]
  | cons hd t ih =>
    obtain ⟨k1, v1⟩ := hd
    by_cases h1 : k1 = k
    · subst h1
      simp [alistRemove, alistLookup, h, ih]
    · simp [alistRemove, alistLookup, h1, ih]

theorem alistLookup_eq_none_iff (l : List (α × β)) (k : α) :
    alistLookup l k = none ↔ k ∉ l.map Prod.fst := by
  induction l with
  | nil => simp [alistLookup]
  | cons hd t ih =>
    obtain ⟨k1, v1⟩ := hd
    by_cases h : k1 = k
    · subst h
      simp [alistLookup]
    · simp [alistLookup, h, ih, Ne.symm h]

theorem alistLookup_some_mem (l : List (α × β)) (k : α) (v : β)
    (h : alistLookup l k = some v) : (k, v) ∈ l := by
  induction l with
  | nil => simp [alistLookup] at h
  | cons hd t ih =>
    obtain ⟨k1, v1⟩ := hd
    by_cases h1 : k1 = k
    · subst h1
      simp [alistLookup] at h
      simp [h]
    · simp [alistLookup, h1] at h
      simp [ih h]

theorem alistSet_map_fst_of_none (l : List (α × β)) (k : α) (v : β)
    (h : alistLookup l k = none) :
    (alistSet l k v).map Prod.fst = l.map Prod.fst ++ [k] := by
  induction l with
  | nil => simp [alistSet]
  | cons hd t ih =>
    obtain ⟨k1, v1⟩ := hd
    by_cases h1 : k1 = k
    · subst h1
      simp [alistLookup] at h
    · simp [alistLookup, h1] at h
      simp [alistSet, h1, ih h]

theorem alistSet_map_fst_of_some (l : List (α × β)) (k : α) (v v1 : β)
    (h : alistLookup l k = some v1) :
    (alistSet l k v).map Prod.fst = l.map Prod.fst := by
  induction l with
  | nil => simp [alistLookup] at h
  | cons hd t ih =>
    obtain ⟨k1, v2⟩ := hd
    by_cases h1 : k1 = k
    · subst h1
      simp [alistSet]
    · simp [alistLookup, h1] at h
      simp [alistSet, h1, ih h]

theorem mem_alistSet (l : List (α × β)) (k : α) (v : β) (x : α × β)
    (h : x ∈ alistSet l k v) : x = (k, v) ∨ x ∈ l := by
  induction l with
  | nil => simpa [alistSet] using h
  | cons hd t ih =>
    obtain ⟨k1, v1⟩ := hd
    by_cases h1 : k1 = k
    · subst h1
      simp [alistSet] at h
      rcases h with h | h
      · exact Or.inl h
      · exact Or.inr (List.mem_cons_of_mem _ h)
    · simp [alistSet, h1] at h
      rcases h with h | h
      · exact Or.inr (by simp [h])
      · rcases ih h with h2 | h2
        · exact Or.inl h2
        · exact Or.inr (List.mem_cons_of_mem _ h2)

theorem alistRemove_sublist (l : List (α × β)) (k : α) :
    (alistRemove l k).Sublist l := by
  induction l with
  | nil => simp [alistRemove]
  | cons hd t ih =>
    obtain ⟨k1, v1⟩ := hd
    by_cases h : k1 = k
    · simpa [alistRemove, h] using ih.cons (k1, v1)
    · simpa [alistRemove, h] using ih.cons₂ (k1, v1)

theorem map_fst_nodup_remove (l : List (α × β)) (k : α)
    (h : (l.map Prod.fst).Nodup) : ((alistRemove l k).map Prod.fst).Nodup :=
  (((alistRemove_sublist l k).map Prod.fst).nodup h)

theorem mem_alistRemove (l : List (α × β)) (k : α) (x : α × β)
    (h : x ∈ alistRemove l k) : x ∈ l :=
  (alistRemove_sublist l k).subset h

end AListLemmas

/-! Lemmas about the waiter registry. -/

theorem wait_of_lookup_some (w : Waiters) (g : CacheGroup) (n : Int) (ch : Nat)
    (h : gateLookup w g n = some ch) : Waiters.wait w g n = (w, ch) := by
  unfold gateLookup at h
  cases hg : alistLookup w.waits g with
  | none => simp [hg] at h
  | some inner =>
    rw [hg] at h
    simp only [Option.some_bind] at h
    simp [Waiters.wait, hg, h]

theorem wait_gate_of_lookup_none (w : Waiters) (g : CacheGroup) (n : Int)
    (h : gateLookup w g n = none) : (Waiters.wait w g n).2 = w.nextGate := by
  unfold gateLookup at h
  cases hg : alistLookup w.waits g with
  | none => simp [Waiters.wait, hg]
  | some inner =>
    rw [hg] at h
    simp only [Option.some_bind] at h
    simp [Waiters.wait, hg, h]

theorem wait_lookup_self (w : Waiters) (g : CacheGroup) (n : Int) :
    gateLookup (Waiters.wait w g n).1 g n = some (Waiters.wait w g n).2 := by
  cases hg : alistLookup w.waits g with
  | none =>
    simp [Waiters.wait, hg, gateLookup, alistLookup_set_self, alistLookup]
  | some inner =>
    cases hi : alistLookup inner n with
    | some ch => simp [Waiters.wait, hg, hi, gateLookup]
    | none =>
      simp [Waiters.wait, hg, hi, gateLookup, alistLookup_set_self]

theorem done_of_lookup_none (w : Waiters) (g : CacheGroup) (n : Int)
    (h : gateLookup w g n = none) : Waiters.done w g n = w := by
  unfold gateLookup at h
  cases hg : alistLookup w.waits g with
  | none => simp [Waiters.done, hg]
  | some inner =>
    rw [hg] at h
    simp only [Option.some_bind] at h
    simp [Waiters.done, hg, h]

theorem done_lookup_none (w : Waiters) (g : CacheGroup) (n : Int) (ch : Nat)
    (h : gateLookup w g n = some ch) :
    gateLookup (Waiters.done w g n) g n = none := by
  unfold gateLookup at h
  cases hg : alistLookup w.waits g with
  | none => simp [hg] at h
  | some inner =>
    rw [hg] at h
    simp only [Option.some_bind] at h
    by_cases hlen : (alistRemove inner n).length = 0
    · simp [Waiters.done, hg, h, hlen, gateLookup, alistLookup_remove_self]
    · simp [Waiters.done, hg, h, hlen, gateLookup, alistLookup_set_self,
        alistLookup_remove_self]

theorem done_closes (w : Waiters) (g : CacheGroup) (n : Int) (ch : Nat)
    (h : gateLookup w g n = some ch) : ch ∈ (Waiters.done w g n).closed := by
  unfold gateLookup at h
  cases hg : alistLookup w.waits g with
  | none => simp [hg] at h
  | some inner =>
    rw [hg] at h
    simp only [Option.some_bind] at h
    by_cases hlen : (alistRemove inner n).length = 0
    · simp [Waiters.done, hg, h, hlen]
    · simp [Waiters.done, hg, h, hlen]

theorem wfw_wait (w : Waiters) (g : CacheGroup) (n : Int) (hwf : WaitersWF w) :
    WaitersWF (Waiters.wait w g n).1 := by
  obtain ⟨h1, h2⟩ := hwf
  cases hg : alistLookup w.waits g with
  | none =>
    have hgnot : g ∉ w.waits.map Prod.fst := (alistLookup_eq_none_iff _ _).mp hg
    constructor
    · simp only [Waiters.wait, hg]
      rw [alistSet_map_fst_of_none _ _ _ hg]
      simp [List.nodup_append, h1, hgnot]
    · intro gi hgi
      simp only [Waiters.wait, hg] at hgi
      rcases mem_alistSet _ _ _ _ hgi with h3 | h3
      · subst h3; simp
      · exact h2 gi h3
  | some inner =>
    cases hi : alistLookup inner n with
    | some ch =>
      simp only [Waiters.wait, hg, hi]
      exact ⟨h1, h2⟩
    | none =>
      have hginner : (g, inner) ∈ w.waits := alistLookup_some_mem _ _ _ hg
      have hinnernodup : (inner.map Prod.fst).Nodup := h2 _ hginner
      have hnnot : n ∉ inner.map Prod.fst := (alistLookup_eq_none_iff _ _).mp hi
      constructor
      · simp only [Waiters.wait, hg, hi]
        rw [alistSet_map_fst_of_some _ _ _ _ hg]
        exact h1
      · intro gi hgi
        simp only [Waiters.wait, hg, hi] at hgi
        rcases mem_alistSet _ _ _ _ hgi with h3 | h3
        · subst h3
          simp only
          rw [alistSet_map_fst_of_none _ _ _ hi]
          simp [List.nodup_append, hinnernodup, hnnot]
        · exact h2 gi h3

theorem wfw_done (w : Waiters) (g : CacheGroup) (n : Int) (hwf : WaitersWF w) :
    WaitersWF (Waiters.done w g n) := by
  obtain ⟨h1, h2⟩ := hwf
  cases hg : alistLookup w.waits g with
  | none =>
    simp only [Waiters.done, hg]
    exact ⟨h1, h2⟩
  | some inner =>
    cases hi : alistLookup inner n with
    | none =>
      simp only [Waiters.done, hg, hi]
      exact ⟨h1, h2⟩
    | some ch =>
      have hginner : (g, inner) ∈ w.waits := alistLookup_some_mem _ _ _ hg
      by_cases hlen : (alistRemove inner n).length = 0
      · constructor
        · simp only [Waiters.done, hg, hi, hlen, if_true]
          exact map_fst_nodup_remove _ _ h1
        · intro gi hgi
          simp only [Waiters.done, hg, hi, hlen, if_true] at hgi
          exact h2 gi (mem_alistRemove _ _ _ hgi)
      · constructor
        · simp only [Waiters.done, hg, hi, hlen, if_false]
          rw [alistSet_map_fst_of_some _ _ _ _ hg]
          exact h1
        · intro gi hgi
          simp only [Waiters.done, hg, hi, hlen, if_false] at hgi
          rcases mem_alistSet _ _ _ _ hgi with h3 | h3
          · subst h3
            exact map_fst_nodup_remove _ _ (h2 _ hginner)
          · exact h2 gi h3

theorem weightedKeyCount_eq_zero {α β : Type} [DecidableEq α]
    (l : List (α × β)) (k : α) (f : β → Nat) (h : k ∉ l.map Prod.fst) :
    weightedKeyCount l k f = 0 := by
  induction l with
  | nil => simp [weightedKeyCount]
  | cons hd t ih =>
    simp only [List.map_cons, List.mem_cons, not_or] at h
    obtain ⟨h1, h2⟩ := h
    have ih2 := ih h2
    simp only [weightedKeyCount, List.map_cons, List.sum_cons] at ih2 ⊢
    rw [if_neg (Ne.symm h1), ih2]

theorem weightedKeyCount_le_one {α β : Type} [DecidableEq α]
    (l : List (α × β)) (k : α) (f : β → Nat)
    (h : (l.map Prod.fst).Nodup) (hf : ∀ x ∈ l, f x.2 ≤ 1) :
    weightedKeyCount l k f ≤ 1 := by
  induction l with
  | nil => simp [weightedKeyCount]
  | cons hd t ih =>
    simp only [List.map_cons, List.nodup_cons] at h
    obtain ⟨hnotin, hnodup⟩ := h
    have hf1 : f hd.2 ≤ 1 := hf hd (by simp)
    have hft : ∀ x ∈ t, f x.2 ≤ 1 := fun x hx => hf x (List.mem_cons_of_mem _ hx)
    by_cases hk : hd.1 = k
    · have hz : weightedKeyCount t k f = 0 :=
        weightedKeyCount_eq_zero t k f (by
          intro hmem
          exact absurd hmem (hk ▸ hnotin))
      simp only [weightedKeyCount, List.map_cons, List.sum_cons] at hz ⊢
      rw [if_pos hk, hz]
      simpa using hf1
    · have iht := ih hnodup hft
      simp only [weightedKeyCount, List.map_cons, List.sum_cons] at iht ⊢
      rw [if_neg hk]
      simpa using iht

theorem gateCount_le_one (w : Waiters) (g : CacheGroup) (n : Int)
    (hwf : WaitersWF w) : gateCount w g n ≤ 1 :=
  weightedKeyCount_le_one _ _ _ hwf.1
    (fun x hx => weightedKeyCount_le_one _ _ _ (hwf.2 x hx) (fun _ _ => le_refl 1))

/-! Lemmas about the sweep pass. -/

theorem mem_collectPurge_keys (es : List (CacheGroup × CacheEntry)) (now : Nat)
    (g : CacheGroup) (h : g ∈ collectPurge es now) : g ∈ es.map Prod.fst := by
  induction es with
  | nil => simp [collectPurge] at h
  | cons hd t ih =>
    obtain ⟨g1, ce1⟩ := hd
    by_cases hinv : ce1.invalid now
    · simp only [collectPurge, hinv, if_true, List.mem_cons] at h
      rcases h with h | h
      · simp [h]
      · simp [ih h]
    · simp only [collectPurge, hinv, if_false] at h
      simp [ih h]

theorem mem_collectPurge_iff (es : List (CacheGroup × CacheEntry)) (now : Nat)
    (g : CacheGroup) (h : (es.map Prod.fst).Nodup) :
    g ∈ collectPurge es now ↔
      ∃ ce, alistLookup es g = some ce ∧ ce.invalid now = true := by
  induction es with
  | nil => simp [collectPurge, alistLookup]
  | cons hd t ih =>
    obtain ⟨g1, ce1⟩ := hd
    simp only [List.map_cons, List.nodup_cons] at h
    obtain ⟨hnotin, hnodup⟩ := h
    have ihh := ih hnodup
    by_cases hg1 : g1 = g
    · subst hg1
      have hnt : g1 ∉ collectPurge t now := fun hmem =>
        hnotin (mem_collectPurge_keys t now g1 hmem)
      cases hinv : ce1.invalid now with
      | true => simp [collectPurge, hinv, alistLookup, hnt]
      | false => simp [collectPurge, hinv, alistLookup, hnt]
    · cases hinv : ce1.invalid now with
      | true =>
        simp only [collectPurge, hinv, if_true, List.mem_cons, alistLookup,
          if_neg hg1]
        constructor
        · rintro (h | h)
          · exact absurd h (Ne.symm hg1)
          · exact ihh.mp h
        · intro h2
          exact Or.inr (ihh.mpr h2)
      | false => simpa [collectPurge, hinv, alistLookup, hg1] using ihh

theorem lookup_foldl_remove (ks : List CacheGroup)
    (es : List (CacheGroup × CacheEntry)) (g : CacheGroup) :
    alistLookup (ks.foldl (fun es2 k => alistRemove es2 k) es) g =
      if g ∈ ks then none else alistLookup es g := by
  induction ks generalizing es with
  | nil => simp
  | cons k ks ih =>
    rw [List.foldl_cons, ih]
    by_cases hgk : g = k
    · subst hgk
      simp [alistLookup_remove_self]
    · simp [List.mem_cons, hgk, alistLookup_remove_ne _ _ _ (Ne.symm hgk)]

/-! Lemmas about the add operation. -/

theorem add_stores (c : Cache) (now : Nat) (g : CacheGroup) (p : Page)
    (err : Option String) :
    pageLookup (Cache.add c now g p err).1 g p.n = some p.body := by
  cases hl : alistLookup c.entries g with
  | none =>
    simp [Cache.add, hl, pageLookup, alistLookup_set_self, CacheEntry.addPage]
  | some ce =>
    simp [Cache.add, hl, pageLookup, alistLookup_set_self, CacheEntry.addPage]

/-- Parse-failure sample for the adapter theorems. -/
def kBad : String := "12a"

/-- Second concrete group key used by the sweep witness. -/
def kB : CacheGroup := "beta"

/-! Claim theorems. -/

/-- Claim C1 (the code refutes it): the spec asserts that concurrent
misses for one (key, page) pair spawn exactly one retrieval task.  In
the code `cache.request` never checks whether the gate already existed,
so a single miss for page 0 already spawns two tasks reporting page 0,
and a second miss for ("abc", 1) — issued while the gate from the first
miss is still registered — spawns a further task for page 1. -/
theorem single_flight_violated :
    (stepTasks (Cache.getStep newCache 10 kAbc 1)).count 1 = 1
  ∧ (stepCache (Cache.getStep newCache 10 kAbc 1)).map
      (fun c1 => gateLookup c1.waits kAbc 1) = some (some 0)
  ∧ (stepCache (Cache.getStep newCache 10 kAbc 1)).map
      (fun c1 => (stepTasks (Cache.getStep c1 11 kAbc 1)).count 1) = some 1
  ∧ (stepTasks (Cache.getStep newCache 10 kAbc 0)).count 0 = 2 := by decide

/-- Claim C2 (the code refutes it): the spec asserts that a miss on
(K, N) fetches pages N, N+1, N+2, N+3.  The code's request for page 0
spawns tasks reporting pages 0, 0, 1, 2 (page 0 twice, page 3 never),
its wait calls are also at 0, 0, 1, 2, and for page 5 the tasks report
pages 10, 5, 6, 7. -/
theorem prefetch_pages_mismatch :
    (Cache.request newWaiters kAbc 0).tasks = [0, 0, 1, 2]
  ∧ (Cache.request newWaiters kAbc 0).waitCalls = [0, 0, 1, 2]
  ∧ (Cache.request newWaiters kAbc 5).tasks = [10, 5, 6, 7]
  ∧ (3 : Int) ∉ (Cache.request newWaiters kAbc 0).tasks := by decide

/-- Claim C3 (the code refutes it): the spec asserts that an expired
entry found on read is treated as absent.  In the code the query
closure evaluates `ce.invalid` at the zero time whenever the entry is
present, so an entry whose deadline (100) lies far before the query
instant (400) is still returned as a hit for page 1 instead of
triggering a fresh fetch. -/
theorem expired_entry_served_from_cache :
    CacheEntry.invalid { deadline := 100, pages := [(1, [7, 7])] } 400 = true
  ∧ Cache.getStep
      { entries := [(kAbc, { deadline := 100, pages := [(1, [7, 7])] })],
        waits := newWaiters } 400 kAbc 1
      = GetStep.hit { n := 1, body := [7, 7], expire := 100, cached := false } := by
  decide

/-- Claim C4: `cache.add` stores the page body unconditionally — the
resulting state does not depend on the task's error, a failed fetch
stores the empty body it carried — creates the entry with a fresh
5-minute TTL when the key is absent, and signals (closes and removes)
the gate registered for (group, page), so blocked callers unblock. -/
theorem add_unconditional_store_and_signal (c : Cache) (now : Nat)
    (g : CacheGroup) (p : Page) (err : Option String) :
    pageLookup (Cache.add c now g p err).1 g p.n = some p.body
  ∧ (Cache.add c now g p err).1 = (Cache.add c now g p none).1
  ∧ (Cache.add c now g p err).2 = err
  ∧ (alistLookup c.entries g = none →
      (alistLookup ((Cache.add c now g p err).1).entries g).map CacheEntry.deadline
        = some (now + 5 * 60))
  ∧ (∀ ch, gateLookup c.waits g p.n = some ch →
      gateLookup ((Cache.add c now g p err).1).waits g p.n = none
      ∧ ch ∈ ((Cache.add c now g p err).1).waits.closed)
  ∧ (∀ (m : Multifetch) (k : Int),
      pageLookup ((Multifetch.fetch m c now k none).1) m.group (m.fetchPage k)
        = some []) := by
  refine ⟨add_stores c now g p err, rfl, rfl, ?_, ?_, ?_⟩
  · intro h
    simp [Cache.add, h, alistLookup_set_self, CacheEntry.addPage, newCacheEntry]
  · intro ch hch
    have h1 : ((Cache.add c now g p err).1).waits = Waiters.done c.waits g p.n := rfl
    rw [h1]
    exact ⟨done_lookup_none _ _ _ _ hch, done_closes _ _ _ _ hch⟩
  · intro m k
    have h0 : (Multifetch.fetch m c now k none).1
        = (Cache.add c now m.group (newPage (m.fetchPage k) []) (some errFetch)).1 := rfl
    rw [h0]
    simpa [newPage] using
      add_stores c now m.group (newPage (m.fetchPage k) []) (some errFetch)

/-- Witness for C4 at a concrete state: the key is absent, a gate (id
0) is registered for ("abc", 2), the task failed; the body is stored,
the entry gets deadline 50 + 300, and gate 0 is closed. -/
theorem add_unconditional_store_and_signal_witness :
    pageLookup (Cache.add { entries := [], waits := (Waiters.wait newWaiters kAbc 2).1 }
        50 kAbc (newPage 2 [9]) (some errFetch)).1 kAbc 2 = some [9]
  ∧ (alistLookup ((Cache.add { entries := [], waits := (Waiters.wait newWaiters kAbc 2).1 }
        50 kAbc (newPage 2 [9]) (some errFetch)).1).entries kAbc).map CacheEntry.deadline
      = some (50 + 5 * 60)
  ∧ (0 : Nat) ∈ ((Cache.add { entries := [], waits := (Waiters.wait newWaiters kAbc 2).1 }
        50 kAbc (newPage 2 [9]) (some errFetch)).1).waits.closed := by
  have h := add_unconditional_store_and_signal
    { entries := [], waits := (Waiters.wait newWaiters kAbc 2).1 }
    50 kAbc (newPage 2 [9]) (some errFetch)
  exact ⟨h.1, h.2.2.2.1 (by decide), (h.2.2.2.2.1 0 (by decide)).2⟩

/-- Claim C5: the registry keeps at most one gate per (group, page):
`wait` returns the registered gate unchanged when one exists and
otherwise registers and returns the fresh gate, after `wait` the pair's
gate is exactly the returned one, `done` closes and removes the
registered gate and is a no-op when none exists, and both operations
preserve well-formedness, under which the number of gates per pair
never exceeds one. -/
theorem waiters_single_gate (w : Waiters) (g : CacheGroup) (n : Int)
    (hwf : WaitersWF w) :
    (∀ ch, gateLookup w g n = some ch → Waiters.wait w g n = (w, ch))
  ∧ (gateLookup w g n = none → (Waiters.wait w g n).2 = w.nextGate)
  ∧ gateLookup (Waiters.wait w g n).1 g n = some (Waiters.wait w g n).2
  ∧ (∀ ch, gateLookup w g n = some ch →
      gateLookup (Waiters.done w g n) g n = none
      ∧ ch ∈ (Waiters.done w g n).closed)
  ∧ (gateLookup w g n = none → Waiters.done w g n = w)
  ∧ WaitersWF (Waiters.wait w g n).1
  ∧ WaitersWF (Waiters.done w g n)
  ∧ (∀ g2 n2, gateCount (Waiters.wait w g n).1 g2 n2 ≤ 1)
  ∧ (∀ g2 n2, gateCount (Waiters.done w g n) g2 n2 ≤ 1) :=
  ⟨fun ch h => wait_of_lookup_some w g n ch h,
   fun h => wait_gate_of_lookup_none w g n h,
   wait_lookup_self w g n,
   fun ch h => ⟨done_lookup_none w g n ch h, done_closes w g n ch h⟩,
   fun h => done_of_lookup_none w g n h,
   wfw_wait w g n hwf,
   wfw_done w g n hwf,
   fun g2 n2 => gateCount_le_one _ g2 n2 (wfw_wait w g n hwf),
   fun g2 n2 => gateCount_le_one _ g2 n2 (wfw_done w g n hwf)⟩

/-- Witness for C5 at the empty registry. -/
theorem waiters_single_gate_witness :
    gateLookup (Waiters.wait newWaiters kAbc 0).1 kAbc 0
      = some (Waiters.wait newWaiters kAbc 0).2
  ∧ gateCount (Waiters.wait newWaiters kAbc 0).1 kAbc 0 ≤ 1 := by
  have hwf0 : WaitersWF newWaiters := by
    constructor
    · simp [newWaiters]
    · intro gi hgi
      simp [newWaiters] at hgi
  have h := waiters_single_gate newWaiters kAbc 0 hwf0
  exact ⟨h.2.2.1, h.2.2.2.2.2.2.2.1 kAbc 0⟩

/-- Claim C6: a sweep pass removes a key's entry exactly when the
entry's deadline is at or before the sweep instant; a live entry is
left untouched. -/
theorem gc_removes_iff_expired (c : Cache) (now : Nat) (g : CacheGroup)
    (h : (c.entries.map Prod.fst).Nodup) :
    alistLookup (Cache.gc c now).entries g =
      match alistLookup c.entries g with
      | none => none
      | some ce => if ce.deadline ≤ now then none else some ce := by
  by_cases hp : 0 < (collectPurge c.entries now).length
  · have hentries : (Cache.gc c now).entries =
        (collectPurge c.entries now).foldl (fun es g2 => alistRemove es g2) c.entries := by
      simp [Cache.gc, hp]
    rw [hentries, lookup_foldl_remove]
    cases hl : alistLookup c.entries g with
    | none =>
      have hnot : g ∉ collectPurge c.entries now := by
        intro hmem
        rcases (mem_collectPurge_iff _ _ _ h).mp hmem with ⟨ce, hce, _⟩
        rw [hl] at hce
        cases hce
      simp [hnot]
    | some ce =>
      by_cases hd : ce.deadline ≤ now
      · have hmem : g ∈ collectPurge c.entries now :=
          (mem_collectPurge_iff _ _ _ h).mpr ⟨ce, hl, by simp [CacheEntry.invalid, hd]⟩
        simp [hmem, hd]
      · have hnot : g ∉ collectPurge c.entries now := by
          intro hmem
          rcases (mem_collectPurge_iff _ _ _ h).mp hmem with ⟨ce2, hce2, hinv2⟩
          rw [hl, Option.some_inj] at hce2
          subst hce2
          simp [CacheEntry.invalid] at hinv2
          omega
        simp [hnot, hd]
  · have hc : Cache.gc c now = c := by simp [Cache.gc, hp]
    rw [hc]
    cases hl : alistLookup c.entries g with
    | none => simp
    | some ce =>
      by_cases hd : ce.deadline ≤ now
      · exfalso
        have hmem : g ∈ collectPurge c.entries now :=
          (mem_collectPurge_iff _ _ _ h).mpr ⟨ce, hl, by simp [CacheEntry.invalid, hd]⟩
        exact hp (List.length_pos.mpr (List.ne_nil_of_mem hmem))
      · simp [hd]

/-- Witness for C6: at sweep time 500, the entry with deadline 100 is
removed and the entry with deadline 1000 survives. -/
theorem gc_removes_iff_expired_witness :
    alistLookup (Cache.gc
      { entries := [(kAbc, { deadline := 100, pages := [] }),
                    (kB, { deadline := 1000, pages := [] })],
        waits := newWaiters } 500).entries kAbc = none
  ∧ alistLookup (Cache.gc
      { entries := [(kAbc, { deadline := 100, pages := [] }),
                    (kB, { deadline := 1000, pages := [] })],
        waits := newWaiters } 500).entries kB
      = some { deadline := 1000, pages := [] } := by
  constructor
  · rw [gc_removes_iff_expired _ 500 kAbc (by decide)]
    decide
  · rw [gc_removes_iff_expired _ 500 kB (by decide)]
    decide

/-- Claim C7: adding a page to an existing entry leaves the entry's
deadline unchanged (it was fixed when the entry was created) and leaves
every page at a different index unchanged. -/
theorem add_preserves_deadline_and_pages (c : Cache) (now : Nat)
    (g : CacheGroup) (p : Page) (err : Option String) (ce : CacheEntry)
    (h : alistLookup c.entries g = some ce) :
    (alistLookup ((Cache.add c now g p err).1).entries g).map CacheEntry.deadline
      = some ce.deadline
  ∧ ∀ m, m ≠ p.n →
      pageLookup (Cache.add c now g p err).1 g m = alistLookup ce.pages m := by
  constructor
  · simp [Cache.add, h, alistLookup_set_self, CacheEntry.addPage]
  · intro m hm
    simp only [Cache.add, h, pageLookup]
    rw [alistLookup_set_self]
    simp only [Option.some_bind, CacheEntry.addPage]
    exact alistLookup_set_ne _ _ _ _ (Ne.symm hm)

/-- Witness for C7: page 1 added to an entry holding page 0 with
deadline 77 leaves the deadline and page 0 intact. -/
theorem add_preserves_deadline_and_pages_witness :
    (alistLookup ((Cache.add
        { entries := [(kAbc, { deadline := 77, pages := [(0, [1])] })],
          waits := newWaiters } 999 kAbc (newPage 1 [2]) none).1).entries kAbc).map
      CacheEntry.deadline = some 77
  ∧ pageLookup (Cache.add
        { entries := [(kAbc, { deadline := 77, pages := [(0, [1])] })],
          waits := newWaiters } 999 kAbc (newPage 1 [2]) none).1 kAbc 0 = some [1] := by
  have h := add_preserves_deadline_and_pages
    { entries := [(kAbc, { deadline := 77, pages := [(0, [1])] })], waits := newWaiters }
    999 kAbc (newPage 1 [2]) none { deadline := 77, pages := [(0, [1])] } (by decide)
  exact ⟨h.1, (h.2 0 (by decide)).trans (by decide)⟩

/-- Claim C8: with the body of page n stored in a live entry, a get
whose first query hits returns exactly that body with cached = true,
and a get that missed on its first query (the key was uncached there)
and hits on its second returns the same body bytes with
cached = false. -/
theorem get_hit_body_and_cached_flag (c s0 : Cache) (now now0 : Nat)
    (g : CacheGroup) (n : Int) (b : List Nat) (ce : CacheEntry)
    (h1 : alistLookup c.entries g = some ce)
    (h2 : alistLookup ce.pages n = some b)
    (h3 : now < ce.deadline)
    (h4 : alistLookup s0.entries g = none) :
    Cache.get [(c, now)] g n
      = some { n := n, body := b, expire := ce.deadline, cached := true }
  ∧ Cache.get [(s0, now0), (c, now)] g n
      = some { n := n, body := b, expire := ce.deadline, cached := false } := by
  have hinv : ce.invalid 0 = false := by
    simp only [CacheEntry.invalid, decide_eq_false_iff_not]
    omega
  constructor
  · simp [Cache.get, Cache.getLoop, Cache.getStep, h1, hinv, CacheEntry.getPage, h2]
  · simp [Cache.get, Cache.getLoop, Cache.getStep, h1, h4, hinv, CacheEntry.getPage, h2]

/-- Witness for C8 at a concrete state holding page 1 of "abc". -/
theorem get_hit_body_and_cached_flag_witness :
    Cache.get [({ entries := [(kAbc, { deadline := 500, pages := [(1, [3, 4])] })],
                  waits := newWaiters }, 50)] kAbc 1
      = some { n := 1, body := [3, 4], expire := 500, cached := true }
  ∧ Cache.get [(newCache, 10),
               ({ entries := [(kAbc, { deadline := 500, pages := [(1, [3, 4])] })],
                  waits := newWaiters }, 50)] kAbc 1
      = some { n := 1, body := [3, 4], expire := 500, cached := false } :=
  get_hit_body_and_cached_flag
    { entries := [(kAbc, { deadline := 500, pages := [(1, [3, 4])] })],
      waits := newWaiters }
    newCache 50 10 kAbc 1 [3, 4] { deadline := 500, pages := [(1, [3, 4])] }
    (by decide) (by decide) (by decide) (by decide)

/-- Claim C9, counterexample: the page variable "-1" parses, so the
adapter does not reject the negative value — it reaches `cache.get`. -/
theorem negative_page_reaches_get :
    handle kAbc negOne = HandleResult.callGet kAbc (-1) ∧ (-1 : Int) < 0 := by
  decide

/-- Claim C9 as amended: with a nonempty query and page variable, the
adapter rejects exactly the values `strconv.ParseInt` fails on (its
non-integers) as request-level failures before touching the store,
while every parsed integer — negative ones included — is passed to
`cache.get`. -/
theorem handle_rejects_only_nonintegers (q s : String)
    (hq : ¬ q = "") (hs : ¬ s = "") :
    handle q s =
      (match strconvParseInt s with
       | none => HandleResult.serverError
       | some m => HandleResult.callGet q m) := by
  simp [handle, hq, hs]

/-- Witness for the amended C9: a malformed page value yields a 500. -/
theorem handle_rejects_only_nonintegers_witness :
    handle kAbc kBad = HandleResult.serverError := by
  have h := handle_rejects_only_nonintegers kAbc kBad (by decide) (by decide)
  rw [h]
  decide

/-- Claim C10: `cache.request` issues wait calls exactly at page
indices n, 0, 1, 2 (the loop registers its counter, not an offset of
n), its spawned tasks report pages 2n, n, n+1, n+2, and for n above 2
no spawned task reports — hence none signals — page 0, 1 or 2. -/
theorem request_waiters_vs_tasks (w : Waiters) (g : CacheGroup) (n : Int) :
    (Cache.request w g n).waitCalls = [n, 0, 1, 2]
  ∧ (Cache.request w g n).tasks = [n + n, n, n + 1, n + 2]
  ∧ (2 < n → ∀ m ∈ (Cache.request w g n).tasks, m ≠ 0 ∧ m ≠ 1 ∧ m ≠ 2) := by
  have hcalls : (Cache.request w g n).waitCalls = [n, 0, 1, 2] := rfl
  have htasks0 : (Cache.request w g n).tasks = [n + n, n + 0, n + 1, n + 2] := rfl
  have htasks : (Cache.request w g n).tasks = [n + n, n, n + 1, n + 2] := by
    rw [htasks0]
    norm_num
  refine ⟨hcalls, htasks, ?_⟩
  intro hn m hm
  rw [htasks] at hm
  simp only [List.mem_cons, List.not_mem_nil, or_false] at hm
  rcases hm with rfl | rfl | rfl | rfl
  · exact ⟨by omega, by omega, by omega⟩
  · exact ⟨by omega, by omega, by omega⟩
  · exact ⟨by omega, by omega, by omega⟩
  · exact ⟨by omega, by omega, by omega⟩

/-- Witness for C10 at n = 5: wait calls at 5, 0, 1, 2 and no task at
pages 0, 1 or 2. -/
theorem request_waiters_vs_tasks_witness :
    (Cache.request newWaiters kAbc 5).waitCalls = [5, 0, 1, 2]
  ∧ ∀ m ∈ (Cache.request newWaiters kAbc 5).tasks, m ≠ 0 ∧ m ≠ 1 ∧ m ≠ 2 := by
  have h := request_waiters_vs_tasks newWaiters kAbc 5
  exact ⟨h.1, h.2.2 (by norm_num)⟩

end Interproxy
